import Mathlib

/-!
Verification development for the `nodejs-ws-lab` client synchronization layer
(`src/client.ts`).  The client is a Phaser scene that

* on `onmessage` (lines 55-83) parses the payload with `JSON.parse`, iterates
  `Object.keys` of the result, skips its own id, and for every other id either
  creates a sprite (id unseen), destroys-and-recreates it (texture key is
  `"__MISSING"`), or updates `x`/`y`/`frame` in place;
* on every `update()` tick (lines 149-199) sets the body velocity from the four
  arrow keys, and, exactly when some key was down, sends
  `JSON.stringify({id, x, y, frame: frame.name})` to the server.

The wire is modelled at the level of parsed JSON values: a payload is
`Option Json`, `none` standing for data on which `JSON.parse` throws.
Numbers are modelled as integers (all coordinates the scene produces are
finite doubles; the claims under study do not depend on float rounding).
-/

namespace WsLab

/-- A parsed JSON value (the result of a successful `JSON.parse`). -/
inductive Json where
  | jnull : Json
  | jbool : Bool → Json
  | jnum : Int → Json
  | jstr : String → Json
  | jarr : List Json → Json
  | jobj : List (String × Json) → Json

open Json

/-- First-match lookup among the own properties of a JS object literal.
`JSON.parse` keeps the last duplicate key, so parsed objects have unique
keys and first-match equals JS property lookup. -/
def jsGetObj : List (String × Json) → String → Option Json
  | [], _ => none
  | (k, v) :: rest, key => if k = key then some v else jsGetObj rest key

/-- JS member access `value[key]`: `none` is JS `undefined`.  Objects map
their keys; arrays and strings answer canonical index keys (the only keys
`Object.keys` reports for them); other primitives have no own properties. -/
def jsGet : Json → String → Option Json
  | jobj kvs, key => jsGetObj kvs key
  | jarr xs, key =>
    match key.toNat? with
    | some i => xs.get? i
    | none => none
  | jstr s, key =>
    match key.toNat? with
    | some i => (s.data.get? i).map (fun c => jstr (String.mk [c]))
    | none => none
  | _, _ => none

/-- `Object.keys` on a parsed JSON value; `none` means the call throws
(`Object.keys(null)` is a `TypeError`).  Arrays and strings are array-like
and enumerate their indices; other primitives have no enumerable keys. -/
def jsKeys : Json → Option (List String)
  | jnull => none
  | jobj kvs => some (kvs.map Prod.fst)
  | jarr xs => some ((List.range xs.length).map (fun n => toString n))
  | jstr s => some ((List.range s.length).map (fun n => toString n))
  | _ => some []

/-- The three JS values destructured from one table entry by
`const { x, y, frame } = playerCoordinates` (each possibly `undefined`). -/
structure JsSample where
  x : Option Json
  y : Option Json
  frame : Option Json

/-- Model of a `Phaser.GameObjects.Sprite` handle as far as the sync layer
observes it: the position/frame last applied to it and its texture key
(`"__MISSING"` when the underlying visual resource failed to resolve). -/
structure Sprite where
  x : Option Json
  y : Option Json
  frame : Option Json
  textureKey : String

/-- `this.add.sprite(x, y, "player", frame)`: a fresh handle carrying the
requested values; the scene requests the `"player"` texture. -/
def mkSprite (s : JsSample) : Sprite :=
  ⟨s.x, s.y, s.frame, "player"⟩

/-- The client's `this.players` map: id → sprite handle. -/
abbrev Registry := List (String × Sprite)

/-- `this.players[id]` (also the `id in this.players` test via `isSome`). -/
def lookupReg : Registry → String → Option Sprite
  | [], _ => none
  | (k, v) :: rest, id => if k = id then some v else lookupReg rest id

/-- JS property assignment `this.players[id] = sprite`: overwrite in place
when the key exists, append otherwise. -/
def setReg : Registry → String → Sprite → Registry
  | [], id, s => [(id, s)]
  | (k, v) :: rest, id, s =>
    if k = id then (id, s) :: rest else (k, v) :: setReg rest id s

/-- The key set of the registry. -/
def regKeys (r : Registry) : List String :=
  r.map Prod.fst

/-- Reconciliation instructions, the spec's vocabulary for what the
`onmessage` loop does to the presentation layer (§4.4): `create` a new
handle, `replace` (destroy old, create new), `update` in place.  The spec
also discusses a `remove` instruction (§9); it is part of the vocabulary so
that its absence from the code's output is expressible. -/
inductive Action where
  | create : String → JsSample → Action
  | replace : String → JsSample → Action
  | update : String → JsSample → Action
  | remove : String → Action

/-- The id an action concerns. -/
def actionId : Action → String
  | .create id _ => id
  | .replace id _ => id
  | .update id _ => id
  | .remove id => id

/-- Whether an action is a `remove`. -/
def isRemove : Action → Bool
  | .remove _ => true
  | _ => false

/-- Whether a JS value is `null` (destructuring it throws a `TypeError`). -/
def Json.isNull : Json → Bool
  | jnull => true
  | _ => false

/-- The body of the `onmessage` loop (src/client.ts lines 59-82), one
iteration per key of the received table, in `Object.keys` order.  A key
equal to `myId` is skipped.  Destructuring a `null` entry throws a
`TypeError`, which aborts the remaining iterations (mutations already made
persist); entries indexed by keys from `jsKeys` are never `undefined`, but
the `none` case is kept for totality and also aborts.  Returns the registry
after the loop together with the reconciliation actions performed, in
order. -/
def processIds (myId : String) (tbl : Json) :
    List String → Registry → Registry × List Action
  | [], reg => (reg, [])
  | pid :: rest, reg =>
    if pid = myId then
      processIds myId tbl rest reg
    else
      match jsGet tbl pid with
      | none => (reg, [])
      | some v =>
        if v.isNull then (reg, [])
        else
          let s : JsSample := ⟨jsGet v "x", jsGet v "y", jsGet v "frame"⟩
          match lookupReg reg pid with
          | none =>
            let out := processIds myId tbl rest (setReg reg pid (mkSprite s))
            (out.1, .create pid s :: out.2)
          | some player =>
            if player.textureKey = "__MISSING" then
              let out := processIds myId tbl rest (setReg reg pid (mkSprite s))
              (out.1, .replace pid s :: out.2)
            else
              let out := processIds myId tbl rest
                (setReg reg pid { player with x := s.x, y := s.y, frame := s.frame })
              (out.1, .update pid s :: out.2)

/-- The whole `onmessage` handler (src/client.ts lines 55-83) on one
incoming message.  `none` is a payload on which `JSON.parse` throws: the
exception leaves the handler before any mutation.  Likewise
`Object.keys(null)` throws before the loop starts. -/
def onMessage (myId : String) (reg : Registry) (payload : Option Json) :
    Registry × List Action :=
  match payload with
  | none => (reg, [])
  | some t =>
    match jsKeys t with
    | none => (reg, [])
    | some ks => processIds myId t ks reg

/-- The `ICoords` interface of src/client.ts: a well-formed position sample
with a numeric `frame` pose index. -/
structure ICoords where
  x : Int
  y : Int
  frame : Int
deriving DecidableEq, Repr

/-- A state table: id → sample, keys unique (§3 StateTable). -/
abbrev StateTable := List (String × ICoords)

/-- The JSON value of one well-formed sample. -/
def encCoords (c : ICoords) : Json :=
  jobj [("x", jnum c.x), ("y", jnum c.y), ("frame", jnum c.frame)]

/-- Modelled from the spec: `encodeTable` of the State Codec (§4.2).  The
relay server (not part of src/) serializes its full table with
`JSON.stringify`, producing one object mapping every id to its sample; this
is the JSON value of that message. -/
def encTable (t : StateTable) : Json :=
  jobj (t.map (fun p => (p.1, encCoords p.2)))

/-- Reading one table entry back under the client's `ICoords` typing
(`{x: number, y: number, frame: number}`): fails unless all three fields
are present and numeric. -/
def decCoords (j : Json) : Option ICoords :=
  match jsGet j "x", jsGet j "y", jsGet j "frame" with
  | some (jnum x), some (jnum y), some (jnum f) => some ⟨x, y, f⟩
  | _, _, _ => none

/-- Reads the entries of a parsed object back as id-to-sample records,
failing on the first ill-formed one. -/
def decEntries : List (String × Json) → Option StateTable
  | [] => some []
  | (id, v) :: rest =>
    match decCoords v, decEntries rest with
    | some c, some t => some ((id, c) :: t)
    | _, _ => none

/-- Modelled from the spec: `decodeTable` of the State Codec (§4.2), the
inverse of `encTable`: succeeds exactly on well-formed id-to-sample
mappings (the `{ [id: string]: ICoords }` type the client casts to). -/
def decTable (j : Json) : Option StateTable :=
  match j with
  | jobj kvs => decEntries kvs
  | _ => none

/-- The JS values an embedded well-formed sample destructures to. -/
def encSample (c : ICoords) : JsSample :=
  ⟨some (jnum c.x), some (jnum c.y), some (jnum c.frame)⟩

/-- The spec's three-way reconciliation rule for one non-local id (§4.4):
`create` when the id is not in the registry, `replace` when its handle is
invalid, `update` otherwise. -/
def ruleAction (reg : Registry) (id : String) (s : JsSample) : Action :=
  match lookupReg reg id with
  | none => .create id s
  | some h => if h.textureKey = "__MISSING" then .replace id s else .update id s

/-- The action list the spec prescribes for a received table: one rule
action per non-local entry, judged against the registry as it stood when
the message arrived. -/
def specActions (myId : String) (reg : Registry) (t : StateTable) : List Action :=
  (t.filter (fun p => !(p.1 == myId))).map (fun p => ruleAction reg p.1 (encSample p.2))

/-- `private VELOCITY = 100` (src/client.ts line 20). -/
def VELOCITY : Int := 100

/-- The four arrow-key states read in `update()`. -/
structure Keys where
  left : Bool
  right : Bool
  up : Bool
  down : Bool
deriving DecidableEq, Repr

/-- The local player's sprite as `update()` observes and mutates it: the
current position, the current animation frame's name (`frame.name`, a
string in the Phaser typings), the arcade body's velocity, and the playing
animation (if any). -/
structure LocalPlayer where
  x : Int
  y : Int
  frameName : String
  vx : Int
  vy : Int
  anim : Option String
deriving DecidableEq, Repr

/-- One message sent to the server:
`JSON.stringify({id: this.myId, x: myPlayer.x, y: myPlayer.y, frame: myPlayer.frame.name})`
(src/client.ts lines 188-195). -/
structure SentMsg where
  id : String
  x : Int
  y : Int
  frame : String
deriving DecidableEq, Repr

/-- The JSON value of a sent message as it appears on the wire: the
`frame` field carries the frame name, a JSON string. -/
def sentToJson (m : SentMsg) : Json :=
  jobj [("id", jstr m.id), ("x", jnum m.x), ("y", jnum m.y), ("frame", jstr m.frame)]

/-- One `update()` tick (src/client.ts lines 149-199) for a present local
player: velocity is set axis by axis from the keys (`left`/`right` and
`up`/`down` as if/else-if pairs), `moving` records whether any key was
down; when not moving the velocity is zeroed and the animation stopped,
otherwise the current sample is stringified and sent.  Returns the mutated
player and the message sent, if any. -/
def update (myId : String) (keys : Keys) (p : LocalPlayer) :
    LocalPlayer × Option SentMsg :=
  let p1 :=
    if keys.left then { p with vx := -VELOCITY, anim := some "left" }
    else if keys.right then { p with vx := VELOCITY, anim := some "right" }
    else { p with vx := 0 }
  let moving1 := keys.left || keys.right
  let p2 :=
    if keys.up then { p1 with vy := -VELOCITY, anim := some "up" }
    else if keys.down then { p1 with vy := VELOCITY, anim := some "down" }
    else { p1 with vy := 0 }
  let moving := moving1 || keys.up || keys.down
  if moving then
    (p2, some ⟨myId, p2.x, p2.y, p2.frameName⟩)
  else
    ({ p2 with vx := 0, vy := 0, anim := none }, none)

/-- One client session (`GameScene`): the id generated once by `uuid()` at
construction, the remote registry, and the local player sprite (absent
until `create()` runs). -/
structure Session where
  myId : String
  players : Registry
  localPlayer : Option LocalPlayer

/-- An external stimulus the session reacts to: a received WebSocket
message, or one simulation tick with its key states. -/
inductive Event where
  | recv : Option Json → Event
  | tick : Keys → Event

/-- The session constructed at page load: `private myId = uuid()` runs at
construction, before `init()` opens the WebSocket, so the id precedes all
events. -/
def newSession (generated : String) : Session :=
  ⟨generated, [], none⟩

/-- One session step: `onmessage` merges a received table into the
registry; a tick runs `update()` when the local player exists (the
`if (myPlayer)` guard).  Both use the stored `myId`. -/
def stepSession (s : Session) (e : Event) : Session × Option SentMsg :=
  match e with
  | .recv payload => ({ s with players := (onMessage s.myId s.players payload).1 }, none)
  | .tick keys =>
    match s.localPlayer with
    | none => (s, none)
    | some p =>
      let out := update s.myId keys p
      ({ s with localPlayer := some out.1 }, out.2)

/-- Run a session through a list of events, collecting the messages sent. -/
def runSession (s : Session) : List Event → Session × List SentMsg
  | [] => (s, [])
  | e :: es =>
    let out := stepSession s e
    let rest := runSession out.1 es
    match out.2 with
    | none => rest
    | some m => (rest.1, m :: rest.2)

/-- The keys the `onmessage` loop will iterate for a payload (empty when
parsing or `Object.keys` throws). -/
def payloadKeys : Option Json → List String
  | none => []
  | some t => (jsKeys t).getD []

/-- A valid visual handle for participant A (texture resolved). -/
def handleA : Sprite :=
  ⟨some (jnum 10), some (jnum 20), some (jnum 1), "player"⟩

/-- Sample `s1` of the §8 reconciliation scenario. -/
def s1 : ICoords := ⟨1, 2, 3⟩

/-- Sample `s2` of the §8 reconciliation scenario. -/
def s2 : ICoords := ⟨4, 5, 6⟩

/-! ### Registry lemmas -/

theorem lookupReg_setReg_self (r : Registry) (id : String) (s : Sprite) :
    lookupReg (setReg r id s) id = some s := by
  induction r with
  | nil => simp [setReg, lookupReg]
  | cons hd tl ih =>
    obtain ⟨k, v⟩ := hd
    by_cases h : k = id
    · simp [setReg, lookupReg, h]
    · simp [setReg, lookupReg, h, ih]

theorem lookupReg_setReg_ne (r : Registry) {id k : String} (h : k ≠ id)
    (s : Sprite) : lookupReg (setReg r id s) k = lookupReg r k := by
  induction r with
  | nil => simp [setReg, lookupReg, Ne.symm h]
  | cons hd tl ih =>
    obtain ⟨k0, v⟩ := hd
    by_cases h0 : k0 = id
    · subst h0
      simp [setReg, lookupReg, Ne.symm h]
    · by_cases h1 : k0 = k
      · subst h1
        simp [setReg, lookupReg, h0]
      · simp [setReg, lookupReg, h0, h1, ih]

theorem mem_regKeys_setReg (r : Registry) (id k : String) (s : Sprite) :
    k ∈ regKeys (setReg r id s) ↔ k ∈ regKeys r ∨ k = id := by
  induction r with
  | nil => simp [setReg, regKeys]
  | cons hd tl ih =>
    obtain ⟨k0, v⟩ := hd
    by_cases h0 : k0 = id
    · subst h0
      simp [setReg, regKeys]
      tauto
    · simp [setReg, regKeys, h0] at ih ⊢
      tauto

/-! ### Loop lemmas -/

theorem processIds_lookup_not_mem (myId : String) (tbl : Json)
    (ks : List String) (reg : Registry) (k : String) (hk : k ∉ ks) :
    lookupReg (processIds myId tbl ks reg).1 k = lookupReg reg k := by
  induction ks generalizing reg with
  | nil => rfl
  | cons pid rest ih =>
    have hne : k ≠ pid := fun h => hk (h ▸ List.mem_cons_self pid rest)
    have hrest : k ∉ rest := fun h => hk (List.mem_cons_of_mem pid h)
    by_cases hpid : pid = myId
    · simp only [processIds, if_pos hpid]
      exact ih _ hrest
    · simp only [processIds, if_neg hpid]
      rcases hv : jsGet tbl pid with _ | v
      · rfl
      · by_cases hn : v.isNull
        · simp [hn]
        · simp only [hn, Bool.false_eq_true, if_false, if_neg]
          rcases hl : lookupReg reg pid with _ | player
          · simpa using (ih _ hrest).trans (lookupReg_setReg_ne reg hne _)
          · by_cases hm : player.textureKey = "__MISSING" <;>
              simpa [hm] using (ih _ hrest).trans (lookupReg_setReg_ne reg hne _)

theorem processIds_lookup_self (myId : String) (tbl : Json)
    (ks : List String) (reg : Registry) :
    lookupReg (processIds myId tbl ks reg).1 myId = lookupReg reg myId := by
  induction ks generalizing reg with
  | nil => rfl
  | cons pid rest ih =>
    by_cases hpid : pid = myId
    · simp only [processIds, if_pos hpid]
      exact ih reg
    · have hne : myId ≠ pid := fun h => hpid h.symm
      simp only [processIds, if_neg hpid]
      rcases hv : jsGet tbl pid with _ | v
      · rfl
      · by_cases hn : v.isNull
        · simp [hn]
        · simp only [hn, Bool.false_eq_true, if_false, if_neg]
          rcases hl : lookupReg reg pid with _ | player
          · simpa using (ih _).trans (lookupReg_setReg_ne reg hne _)
          · by_cases hm : player.textureKey = "__MISSING" <;>
              simpa [hm] using (ih _).trans (lookupReg_setReg_ne reg hne _)

theorem processIds_actions_self (myId : String) (tbl : Json)
    (ks : List String) (reg : Registry) :
    (processIds myId tbl ks reg).2.filter (fun a => actionId a == myId) = [] := by
  induction ks generalizing reg with
  | nil => rfl
  | cons pid rest ih =>
    by_cases hpid : pid = myId
    · simp only [processIds, if_pos hpid]
      exact ih reg
    · simp only [processIds, if_neg hpid]
      rcases hv : jsGet tbl pid with _ | v
      · rfl
      · by_cases hn : v.isNull
        · simp [hn]
        · simp only [hn, Bool.false_eq_true, if_false, if_neg]
          rcases hl : lookupReg reg pid with _ | player
          · simpa [List.filter_cons, actionId, beq_iff_eq, hpid] using ih _
          · by_cases hm : player.textureKey = "__MISSING" <;>
              simpa [hm, List.filter_cons, actionId, beq_iff_eq, hpid] using ih _

theorem processIds_no_remove (myId : String) (tbl : Json)
    (ks : List String) (reg : Registry) :
    (processIds myId tbl ks reg).2.filter isRemove = [] := by
  induction ks generalizing reg with
  | nil => rfl
  | cons pid rest ih =>
    by_cases hpid : pid = myId
    · simp only [processIds, if_pos hpid]
      exact ih reg
    · simp only [processIds, if_neg hpid]
      rcases hv : jsGet tbl pid with _ | v
      · rfl
      · by_cases hn : v.isNull
        · simp [hn]
        · simp only [hn, Bool.false_eq_true, if_false, if_neg]
          rcases hl : lookupReg reg pid with _ | player
          · simpa [List.filter, isRemove] using ih _
          · by_cases hm : player.textureKey = "__MISSING" <;>
              simpa [hm, List.filter, isRemove] using ih _

theorem processIds_keys_mono (myId : String) (tbl : Json)
    (ks : List String) (reg : Registry) (k : String)
    (h : k ∈ regKeys reg) :
    k ∈ regKeys (processIds myId tbl ks reg).1 := by
  induction ks generalizing reg with
  | nil => exact h
  | cons pid rest ih =>
    by_cases hpid : pid = myId
    · simp only [processIds, if_pos hpid]
      exact ih reg h
    · simp only [processIds, if_neg hpid]
      rcases hv : jsGet tbl pid with _ | v
      · exact h
      · by_cases hn : v.isNull
        · simpa [hn] using h
        · simp only [hn, Bool.false_eq_true, if_false, if_neg]
          rcases hl : lookupReg reg pid with _ | player
          · exact ih _ ((mem_regKeys_setReg reg pid k _).2 (Or.inl h))
          · by_cases hm : player.textureKey = "__MISSING" <;>
              simp only [hm, if_true, if_false] <;>
              exact ih _ ((mem_regKeys_setReg reg pid k _).2 (Or.inl h))

/-! ### Well-formed tables -/

@[simp] theorem jsGet_encCoords_x (c : ICoords) :
    jsGet (encCoords c) "x" = some (jnum c.x) := rfl

@[simp] theorem jsGet_encCoords_y (c : ICoords) :
    jsGet (encCoords c) "y" = some (jnum c.y) := rfl

@[simp] theorem jsGet_encCoords_frame (c : ICoords) :
    jsGet (encCoords c) "frame" = some (jnum c.frame) := rfl

@[simp] theorem isNull_encCoords (c : ICoords) :
    (encCoords c).isNull = false := rfl

theorem jsKeys_encTable (t : StateTable) :
    jsKeys (encTable t) = some (t.map Prod.fst) := by
  simp [jsKeys, encTable, List.map_map, Function.comp]

theorem jsGet_encTable (t : StateTable) (hnd : (t.map Prod.fst).Nodup) :
    ∀ p ∈ t, jsGet (encTable t) p.1 = some (encCoords p.2) := by
  induction t with
  | nil => simp
  | cons q rest ih =>
    obtain ⟨id, c⟩ := q
    simp only [List.map_cons, List.nodup_cons] at hnd
    intro p hp
    rcases List.mem_cons.1 hp with h | h
    · subst h
      simp [encTable, jsGet, jsGetObj]
    · have hne : id ≠ p.1 := by
        intro hh
        apply hnd.1
        rw [hh]
        exact List.mem_map_of_mem Prod.fst h
      have := ih hnd.2 p h
      simpa [encTable, jsGet, jsGetObj, hne] using this

theorem onMessage_encTable (myId : String) (reg : Registry) (t : StateTable) :
    onMessage myId reg (some (encTable t)) =
      processIds myId (encTable t) (t.map Prod.fst) reg := by
  simp [onMessage, jsKeys_encTable]

theorem ruleAction_setReg_ne (reg : Registry) {id k : String} (h : k ≠ id)
    (s : Sprite) (sample : JsSample) :
    ruleAction (setReg reg id s) k sample = ruleAction reg k sample := by
  simp [ruleAction, lookupReg_setReg_ne reg h]

theorem specActions_setReg (myId : String) (reg : Registry) (id : String)
    (s : Sprite) (t : StateTable) (h : id ∉ t.map Prod.fst) :
    specActions myId (setReg reg id s) t = specActions myId reg t := by
  unfold specActions
  apply List.map_congr_left
  intro p hp
  have hmem : p.1 ∈ t.map Prod.fst :=
    List.mem_map_of_mem Prod.fst (List.mem_of_mem_filter hp)
  have hne : p.1 ≠ id := by
    intro hh
    apply h
    rw [← hh]
    exact hmem
  exact ruleAction_setReg_ne reg hne s _

theorem processIds_actions_spec (myId : String) (tbl : Json) (t : StateTable)
    (reg : Registry)
    (hget : ∀ p ∈ t, jsGet tbl p.1 = some (encCoords p.2))
    (hnd : (t.map Prod.fst).Nodup) :
    (processIds myId tbl (t.map Prod.fst) reg).2 = specActions myId reg t := by
  induction t generalizing reg with
  | nil => rfl
  | cons q rest ih =>
    obtain ⟨id, c⟩ := q
    simp only [List.map_cons, List.nodup_cons] at hnd
    have hhead : jsGet tbl id = some (encCoords c) := hget _ (List.mem_cons_self _ _)
    have hrestget : ∀ p ∈ rest, jsGet tbl p.1 = some (encCoords p.2) :=
      fun p hp => hget p (List.mem_cons_of_mem _ hp)
    by_cases hpid : id = myId
    · simp only [List.map_cons, processIds, if_pos hpid]
      rw [ih reg hrestget hnd.2]
      simp [specActions, List.filter_cons, beq_iff_eq, hpid]
    · simp only [List.map_cons, processIds, if_neg hpid, hhead, isNull_encCoords,
        Bool.false_eq_true, if_false, if_neg, jsGet_encCoords_x, jsGet_encCoords_y,
        jsGet_encCoords_frame]
      rcases hl : lookupReg reg id with _ | player
      · rw [ih _ hrestget hnd.2, specActions_setReg myId reg id _ rest hnd.1]
        simp [specActions, List.filter_cons, beq_iff_eq, hpid, ruleAction, hl, encSample]
      · by_cases hm : player.textureKey = "__MISSING"
        · simp only [hm, if_true]
          rw [ih _ hrestget hnd.2, specActions_setReg myId reg id _ rest hnd.1]
          simp [specActions, List.filter_cons, beq_iff_eq, hpid, ruleAction, hl, hm, encSample]
        · simp only [hm, if_false, if_neg]
          rw [ih _ hrestget hnd.2, specActions_setReg myId reg id _ rest hnd.1]
          simp [specActions, List.filter_cons, beq_iff_eq, hpid, ruleAction, hl, hm, encSample]

theorem processIds_keys_wf (myId : String) (tbl : Json) (t : StateTable)
    (reg : Registry)
    (hget : ∀ p ∈ t, jsGet tbl p.1 = some (encCoords p.2))
    (hnd : (t.map Prod.fst).Nodup) (k : String) :
    k ∈ regKeys (processIds myId tbl (t.map Prod.fst) reg).1 ↔
      k ∈ regKeys reg ∨ (k ∈ t.map Prod.fst ∧ k ≠ myId) := by
  induction t generalizing reg with
  | nil => simp [processIds]
  | cons q rest ih =>
    obtain ⟨id, c⟩ := q
    simp only [List.map_cons, List.nodup_cons] at hnd
    have hhead : jsGet tbl id = some (encCoords c) := hget _ (List.mem_cons_self _ _)
    have hrestget : ∀ p ∈ rest, jsGet tbl p.1 = some (encCoords p.2) :=
      fun p hp => hget p (List.mem_cons_of_mem _ hp)
    by_cases hpid : id = myId
    · simp only [List.map_cons, processIds, if_pos hpid]
      rw [ih reg hrestget hnd.2]
      constructor
      · rintro (h | ⟨h1, h2⟩)
        · exact Or.inl h
        · exact Or.inr ⟨List.mem_cons_of_mem _ h1, h2⟩
      · rintro (h | ⟨h1, h2⟩)
        · exact Or.inl h
        · rcases List.mem_cons.1 h1 with h1 | h1
          · exact absurd (h1.trans hpid) h2
          · exact Or.inr ⟨h1, h2⟩
    · simp only [List.map_cons, processIds, if_neg hpid, hhead, isNull_encCoords,
        Bool.false_eq_true, if_false, if_neg, jsGet_encCoords_x, jsGet_encCoords_y,
        jsGet_encCoords_frame]
      have finish : ∀ s : Sprite,
          k ∈ regKeys (processIds myId tbl (rest.map Prod.fst) (setReg reg id s)).1 ↔
            k ∈ regKeys reg ∨ (k ∈ id :: rest.map Prod.fst ∧ k ≠ myId) := by
        intro s
        rw [ih (setReg reg id s) hrestget hnd.2]
        rw [mem_regKeys_setReg]
        by_cases hk : k = id
        · subst hk
          simp [hpid]
        · simp only [List.mem_cons, hk, false_or]
          tauto
      rcases hl : lookupReg reg id with _ | player
      · exact finish _
      · by_cases hm : player.textureKey = "__MISSING" <;>
          simp only [hm, if_true, if_false, if_neg] <;>
          exact finish _

/-! ### Tick lemmas -/

theorem update_cases (myId : String) (keys : Keys) (p : LocalPlayer) :
    ((update myId keys p).2 = none
      ∧ (update myId keys p).1.vx = 0 ∧ (update myId keys p).1.vy = 0
      ∧ (keys.left || keys.right || keys.up || keys.down) = false)
    ∨ ((update myId keys p).2 = some ⟨myId, p.x, p.y, p.frameName⟩
      ∧ ¬((update myId keys p).1.vx = 0 ∧ (update myId keys p).1.vy = 0)
      ∧ (keys.left || keys.right || keys.up || keys.down) = true) := by
  obtain ⟨l, r, u, d⟩ := keys
  cases l <;> cases r <;> cases u <;> cases d
  · exact Or.inl ⟨rfl, rfl, rfl, rfl⟩
  all_goals refine Or.inr ⟨rfl, ?_, rfl⟩
  all_goals simp [update, VELOCITY]

theorem stepSession_myId (s : Session) (e : Event) :
    (stepSession s e).1.myId = s.myId := by
  cases e with
  | recv payload => rfl
  | tick keys =>
    rw [stepSession]
    rcases hl : s.localPlayer with _ | p <;> rfl

theorem stepSession_msg_id (s : Session) (e : Event) (m : SentMsg)
    (h : (stepSession s e).2 = some m) : m.id = s.myId := by
  cases e with
  | recv payload => cases h
  | tick keys =>
    cases hl : s.localPlayer with
    | none => rw [stepSession, hl] at h; cases h
    | some p =>
      rw [stepSession, hl] at h
      rcases update_cases s.myId keys p with ⟨h1, _, _, _⟩ | ⟨h1, _, _⟩
      · simp only [h1] at h; cases h
      · simp only [h1, Option.some.injEq] at h
        rw [← h]

theorem runSession_stable (s : Session) (es : List Event) :
    (runSession s es).1.myId = s.myId
    ∧ ∀ m ∈ (runSession s es).2, m.id = s.myId := by
  induction es generalizing s with
  | nil => exact ⟨rfl, by simp [runSession]⟩
  | cons e rest ih =>
    have hstep : (stepSession s e).1.myId = s.myId := stepSession_myId s e
    obtain ⟨ih1, ih2⟩ := ih (stepSession s e).1
    cases hm : (stepSession s e).2 with
    | none =>
      refine ⟨?_, ?_⟩
      · simpa [runSession, hm, hstep] using ih1.trans hstep
      · intro m hmem
        rw [runSession] at hmem
        simp only [hm] at hmem
        exact (ih2 m hmem).trans hstep
    | some m0 =>
      refine ⟨?_, ?_⟩
      · simpa [runSession, hm, hstep] using ih1.trans hstep
      · intro m hmem
        rw [runSession] at hmem
        simp only [hm, List.mem_cons] at hmem
        rcases hmem with hmem | hmem
        · rw [hmem]
          exact stepSession_msg_id s e m0 hm
        · exact (ih2 m hmem).trans hstep

theorem onMessage_keys_mono (myId : String) (reg : Registry)
    (payload : Option Json) (k : String) (h : k ∈ regKeys reg) :
    k ∈ regKeys (onMessage myId reg payload).1 := by
  rcases payload with _ | t
  · exact h
  · rw [onMessage]
    rcases hk : jsKeys t with _ | ks
    · exact h
    · exact processIds_keys_mono myId t ks reg k h

theorem runSession_keys_mono (s : Session) (es : List Event) (k : String)
    (h : k ∈ regKeys s.players) :
    k ∈ regKeys (runSession s es).1.players := by
  induction es generalizing s with
  | nil => exact h
  | cons e rest ih =>
    have hstep : k ∈ regKeys (stepSession s e).1.players := by
      cases e with
      | recv payload => exact onMessage_keys_mono s.myId s.players payload k h
      | tick keys => cases hl : s.localPlayer <;> simp [stepSession, hl] <;> exact h
    cases hm : (stepSession s e).2 with
    | none => simpa [runSession, hm] using ih _ hstep
    | some m0 => simpa [runSession, hm] using ih _ hstep

/-! ### Claims -/

/-- C1: for every received well-formed state table (unique keys) and every
registry, the `onmessage` handler emits, for each non-local id in table
order, exactly the action of the three-way rule — `Create` when the id is
unknown, `Replace` when its handle's texture is `"__MISSING"`, `Update`
otherwise — judged against the registry at message arrival.  On registry
`{A: handleA}`, table `{A: s1, B: s2}` and local id `C` the actions are
exactly `Update(A, s1)` and `Create(B, s2)`, and afterwards the registry
holds handles for both A and B. -/
theorem reconcileThreeWayRule :
    (∀ (myId : String) (reg : Registry) (t : StateTable),
        (t.map Prod.fst).Nodup →
        (onMessage myId reg (some (encTable t))).2 = specActions myId reg t)
    ∧ ((onMessage "C" [("A", handleA)] (some (encTable [("A", s1), ("B", s2)]))).2
        = [Action.update "A" (encSample s1), Action.create "B" (encSample s2)]
      ∧ (lookupReg (onMessage "C" [("A", handleA)]
            (some (encTable [("A", s1), ("B", s2)]))).1 "A").isSome = true
      ∧ (lookupReg (onMessage "C" [("A", handleA)]
            (some (encTable [("A", s1), ("B", s2)]))).1 "B").isSome = true) := by
  refine ⟨fun myId reg t h => ?_, rfl, rfl, rfl⟩
  rw [onMessage_encTable]
  exact processIds_actions_spec myId (encTable t) t reg (jsGet_encTable t h) h

/-- Witness for C1's quantified part at the §8 scenario. -/
theorem reconcileThreeWayRuleWitness :
    (onMessage "C" [("A", handleA)] (some (encTable [("A", s1), ("B", s2)]))).2
      = specActions "C" [("A", handleA)] [("A", s1), ("B", s2)] :=
  reconcileThreeWayRule.1 "C" [("A", handleA)] [("A", s1), ("B", s2)] (by decide)

/-- C2 (amended): a payload on which `JSON.parse` throws yields no actions
and leaves the registry unchanged, and the failure is per-message — the
session state is untouched and later messages are processed independently.
Only parse failures are dropped this way; a payload that parses to
something other than an id-to-sample mapping is still fed to the loop (see
the counterexample). -/
theorem parseFailureDropsMessage (myId : String) (reg : Registry) :
    onMessage myId reg none = (reg, [])
    ∧ ∀ s : Session, stepSession s (.recv none) = (s, none) :=
  ⟨rfl, fun _ => rfl⟩

/-- C2 counterexample: the JSON payload `{"a": {}}` parses but is not a
well-formed id-to-sample mapping (`decTable` rejects it), yet the handler
does not drop it: starting from an empty registry it creates an entry for
`"a"` (with `undefined` coordinates) and emits a `Create` action, so the
registry does not stay unchanged and the action list is not empty. -/
theorem malformedNotDroppedCex :
    decTable (jobj [("a", jobj [])]) = none
    ∧ (onMessage "b" [] (some (jobj [("a", jobj [])]))).1 ≠ []
    ∧ (onMessage "b" [] (some (jobj [("a", jobj [])]))).2 ≠ [] := by
  refine ⟨rfl, ?_, ?_⟩
  · show ([("a", mkSprite ⟨none, none, none⟩)] : Registry) ≠ []
    exact List.cons_ne_nil _ _
  · show ([Action.create "a" ⟨none, none, none⟩] : List Action) ≠ []
    exact List.cons_ne_nil _ _

/-- C3: message handling never produces an action for the local id and
never touches the local id's registry entry — for every payload,
well-formed or not. -/
theorem selfExclusion (myId : String) (reg : Registry) (payload : Option Json) :
    (onMessage myId reg payload).2.filter (fun a => actionId a == myId) = []
    ∧ lookupReg (onMessage myId reg payload).1 myId = lookupReg reg myId := by
  rcases payload with _ | t
  · exact ⟨rfl, rfl⟩
  · rw [onMessage]
    rcases hk : jsKeys t with _ | ks
    · exact ⟨rfl, rfl⟩
    · exact ⟨processIds_actions_self myId t ks reg, processIds_lookup_self myId t ks reg⟩

/-- C4: an id absent from the received table keeps its registry entry and
handle unchanged, and no `Remove` action is ever produced — for every
payload. -/
theorem absentIdsUntouched (myId : String) (reg : Registry)
    (payload : Option Json) (k : String) (h : k ∉ payloadKeys payload) :
    lookupReg (onMessage myId reg payload).1 k = lookupReg reg k
    ∧ (onMessage myId reg payload).2.filter isRemove = [] := by
  rcases payload with _ | t
  · exact ⟨rfl, rfl⟩
  · rw [onMessage]
    rcases hk : jsKeys t with _ | ks
    · exact ⟨rfl, rfl⟩
    · rw [payloadKeys, hk] at h
      exact ⟨processIds_lookup_not_mem myId t ks reg k h,
        processIds_no_remove myId t ks reg⟩

/-- Witness for C4: id Z is in the registry, absent from the received
table, and survives untouched. -/
theorem absentIdsUntouchedWitness :
    lookupReg (onMessage "m" [("Z", handleA)] (some (encTable [("A", s1)]))).1 "Z"
      = lookupReg [("Z", handleA)] "Z"
    ∧ (onMessage "m" [("Z", handleA)] (some (encTable [("A", s1)]))).2.filter isRemove = [] :=
  absentIdsUntouched "m" [("Z", handleA)] (some (encTable [("A", s1)])) "Z" (by decide)

/-- C5: a tick sends nothing exactly when it left the body with zero
velocity on both axes (no movement key active), sends the current
`{x, y, frame}` sample otherwise, and a tick with no keys down never
transmits (so repeating it adds no transmission). -/
theorem sendOnlyWhenMoved :
    (∀ (myId : String) (keys : Keys) (p : LocalPlayer),
        ((update myId keys p).2 = none ↔
          (update myId keys p).1.vx = 0 ∧ (update myId keys p).1.vy = 0)
        ∧ ∀ m : SentMsg, (update myId keys p).2 = some m →
            m = ⟨myId, p.x, p.y, p.frameName⟩)
    ∧ ∀ (myId : String) (p : LocalPlayer),
        (update myId ⟨false, false, false, false⟩ p).2 = none := by
  refine ⟨fun myId keys p => ⟨?_, ?_⟩, fun myId p => rfl⟩
  · rcases update_cases myId keys p with ⟨h1, h2, h3, _⟩ | ⟨h1, h2, _⟩
    · rw [h1, h2, h3]
      simp
    · rw [h1]
      exact iff_of_false (by simp) h2
  · intro m hm
    rcases update_cases myId keys p with ⟨h1, _, _, _⟩ | ⟨h1, _, _⟩
    · rw [h1] at hm
      cases hm
    · rw [h1] at hm
      exact (Option.some.inj hm).symm

/-- Witness for C5: with the right key down the tick sends the current
sample; with no key down it sends nothing. -/
theorem sendOnlyWhenMovedWitness :
    (⟨"a", 5, 6, "f1"⟩ : SentMsg) = ⟨"a", 5, 6, "f1"⟩
    ∧ (update "a" ⟨false, false, false, false⟩ ⟨5, 6, "f1", 0, 0, none⟩).2 = none :=
  ⟨(sendOnlyWhenMoved.1 "a" ⟨false, true, false, false⟩ ⟨5, 6, "f1", 0, 0, none⟩).2
      ⟨"a", 5, 6, "f1"⟩ rfl,
    sendOnlyWhenMoved.2 "a" ⟨5, 6, "f1", 0, 0, none⟩⟩

theorem decCoords_encCoords (c : ICoords) :
    decCoords (encCoords c) = some c := rfl

/-- C6: decoding the encoding of any state table yields the table back —
the codec round-trip at the JSON value level, with coordinates modelled as
integers. -/
theorem decodeEncodeRoundTrip (t : StateTable) :
    decTable (encTable t) = some t := by
  induction t with
  | nil => rfl
  | cons p rest ih =>
    obtain ⟨id, c⟩ := p
    have ih2 : decEntries (rest.map (fun q => (q.1, encCoords q.2))) = some rest := ih
    simp [encTable, decTable, decEntries, decCoords_encCoords, ih2]

/-- C7: every message the client sends is the single object
`{id, x, y, frame}` whose `id` equals the local participant id, and a
message exists only when the tick left nonzero velocity (the participant
moved). -/
theorem outboundShape (myId : String) (keys : Keys) (p : LocalPlayer)
    (m : SentMsg) (h : (update myId keys p).2 = some m) :
    m.id = myId
    ∧ sentToJson m = jobj [("id", jstr myId), ("x", jnum m.x), ("y", jnum m.y),
        ("frame", jstr m.frame)]
    ∧ ¬((update myId keys p).1.vx = 0 ∧ (update myId keys p).1.vy = 0) := by
  rcases update_cases myId keys p with ⟨h1, _, _, _⟩ | ⟨h1, h2, _⟩
  · rw [h1] at h
    cases h
  · rw [h1] at h
    cases Option.some.inj h
    exact ⟨rfl, rfl, h2⟩

/-- Witness for C7 at a concrete moving tick. -/
theorem outboundShapeWitness :
    ("a" : String) = "a"
    ∧ sentToJson ⟨"a", 5, 6, "f1"⟩
        = jobj [("id", jstr "a"), ("x", jnum 5), ("y", jnum 6), ("frame", jstr "f1")]
    ∧ ¬((update "a" ⟨true, false, false, false⟩ ⟨5, 6, "f1", 0, 0, none⟩).1.vx = 0
        ∧ (update "a" ⟨true, false, false, false⟩ ⟨5, 6, "f1", 0, 0, none⟩).1.vy = 0) :=
  outboundShape "a" ⟨true, false, false, false⟩ ⟨5, 6, "f1", 0, 0, none⟩
    ⟨"a", 5, 6, "f1"⟩ rfl

/-- C8: the participant id is fixed at session construction, before any
event (hence before any network activity), never changes across any
sequence of received messages and ticks, and every message sent during the
session carries exactly that id. -/
theorem participantIdStable (generated : String) (es : List Event) :
    (runSession (newSession generated) es).1.myId = generated
    ∧ (runSession (newSession generated) es).2.all (fun m => m.id == generated) = true := by
  obtain ⟨h1, h2⟩ := runSession_stable (newSession generated) es
  refine ⟨h1, ?_⟩
  rw [List.all_eq_true]
  intro m hm
  exact beq_iff_eq.2 (h2 m hm)

/-- C9: after a well-formed table is processed, the registry key set is the
old key set united with the table's non-local ids (so every non-local id
of the table has an entry afterwards), and across any event sequence the
key set never shrinks. -/
theorem registryKeysGrow :
    (∀ (myId : String) (reg : Registry) (t : StateTable) (k : String),
        (t.map Prod.fst).Nodup →
        (k ∈ regKeys (onMessage myId reg (some (encTable t))).1 ↔
          k ∈ regKeys reg ∨ (k ∈ t.map Prod.fst ∧ k ≠ myId)))
    ∧ ∀ (s : Session) (es : List Event) (k : String),
        k ∈ regKeys s.players → k ∈ regKeys (runSession s es).1.players := by
  refine ⟨fun myId reg t k h => ?_, fun s es k h => runSession_keys_mono s es k h⟩
  rw [onMessage_encTable]
  exact processIds_keys_wf myId (encTable t) t reg (jsGet_encTable t h) h k

/-- Witness for C9 at the §8 scenario: B gains an entry, A keeps one. -/
theorem registryKeysGrowWitness :
    ("B" ∈ regKeys (onMessage "C" [("A", handleA)]
        (some (encTable [("A", s1), ("B", s2)]))).1 ↔
      "B" ∈ regKeys [("A", handleA)] ∨
        ("B" ∈ ([("A", s1), ("B", s2)] : StateTable).map Prod.fst ∧ "B" ≠ "C"))
    ∧ "A" ∈ regKeys (runSession ⟨"C", [("A", handleA)], none⟩ []).1.players :=
  ⟨registryKeysGrow.1 "C" [("A", handleA)] [("A", s1), ("B", s2)] "B" (by decide),
    registryKeysGrow.2 ⟨"C", [("A", handleA)], none⟩ [] "A" (by decide)⟩

/-- C10: every sent message's `frame` field carries the animation frame's
name — a JSON string (`myPlayer.frame.name`) — not a numeric pose index:
the sent object does not even decode under the numeric `ICoords` reading
the client applies to received tables. -/
theorem sentFrameIsName (myId : String) (keys : Keys) (p : LocalPlayer)
    (m : SentMsg) (h : (update myId keys p).2 = some m) :
    jsGet (sentToJson m) "frame" = some (jstr p.frameName)
    ∧ decCoords (sentToJson m) = none := by
  rcases update_cases myId keys p with ⟨h1, _, _, _⟩ | ⟨h1, _, _⟩
  · rw [h1] at h
    cases h
  · rw [h1] at h
    cases Option.some.inj h
    exact ⟨rfl, rfl⟩

/-- Witness for C10 at a concrete moving tick. -/
theorem sentFrameIsNameWitness :
    jsGet (sentToJson ⟨"a", 5, 6, "f1"⟩) "frame" = some (jstr "f1")
    ∧ decCoords (sentToJson ⟨"a", 5, 6, "f1"⟩) = none :=
  sentFrameIsName "a" ⟨false, false, true, false⟩ ⟨5, 6, "f1", 0, 0, none⟩
    ⟨"a", 5, 6, "f1"⟩ rfl

end WsLab
